import Mathlib

/-!
Verification development for the subconverter-go repository.

The Go sources under `internal/app/parser`, `internal/app/generator` and the
converter service are shallowly embedded below.  Machine strings are Lean
`String`s (byte-per-char for decoded base64 payloads, exact on the ASCII
inputs considered), Go `int` is Lean `Int`, and fallible functions return
`Option`/`Except`.  Functions from the Go standard library that the sources
call (`strings.*`, `strconv.Atoi`, `encoding/base64`, `net/url`,
`encoding/json` restricted to flat string objects) are modelled faithfully for
the input domain that subscription links exercise; each model carries a doc
comment stating its scope.  Nondeterministic effects (`uuid.New`, timestamps,
goroutine fan-in order) are left out of the proxy record or abstracted into
explicit parameters.
-/

set_option maxRecDepth 20000

/-- Left brace character, written via its code point. -/
def lbrace : Char := Char.ofNat 123

/-- Right brace character, written via its code point. -/
def rbrace : Char := Char.ofNat 125

/-- Occurrence of `pat` as a contiguous run inside a character list. -/
def containsRun (pat : List Char) : List Char → Bool
  | [] => pat.isEmpty
  | c :: rest => pat.isPrefixOf (c :: rest) || containsRun pat rest

/-- Model of Go `strings.Contains s sub`. -/
def goContains (s sub : String) : Bool :=
  containsRun sub.toList s.toList

/-- Model of Go `strings.HasPrefix s pre`. -/
def goStartsWith (s pre : String) : Bool :=
  pre.toList.isPrefixOf s.toList

/-- Model of Go `strings.HasSuffix s suf`. -/
def goEndsWith (s suf : String) : Bool :=
  suf.toList.isSuffixOf s.toList

/-- Model of Go `strings.TrimPrefix s pre`: drop `pre` when it is a prefix. -/
def goTrimPre (s pre : String) : String :=
  if goStartsWith s pre then ⟨s.toList.drop pre.toList.length⟩ else s

/-- Model of Go `strings.ToLower` restricted to ASCII letters
(all inputs the code compares against are ASCII keywords). -/
def goToLower (s : String) : String :=
  ⟨s.toList.map Char.toLower⟩

/-- Splitting helper for Go `strings.SplitN(s, sep, 2)` with a one-character
separator: returns the pieces around the first occurrence of `sep`, or `none`
when `sep` does not occur (in which case Go returns a one-element slice). -/
def splitFirst? (sep : Char) : List Char → Option (List Char × List Char)
  | [] => none
  | c :: rest =>
    if c = sep then some ([], rest)
    else
      match splitFirst? sep rest with
      | some (a, b) => some (c :: a, b)
      | none => none

/-- Splitting at the last occurrence of `sep` (Go `strings.LastIndex`),
`none` when absent. -/
def splitLast? (sep : Char) (cs : List Char) : Option (List Char × List Char) :=
  match splitFirst? sep cs.reverse with
  | some (a, b) => some (b.reverse, a.reverse)
  | none => none

/-- Model of Go `strings.Split(s, sep)` for a one-character separator:
split at every occurrence. -/
def splitAll (sep : Char) : List Char → List (List Char)
  | [] => [[]]
  | c :: rest =>
    let groups := splitAll sep rest
    if c = sep then [] :: groups
    else
      match groups with
      | g :: gs => (c :: g) :: gs
      | [] => [[c]]

/-- Fuel-indexed core of `strings.ReplaceAll` for a non-empty pattern:
leftmost-first non-overlapping replacement. -/
def replaceAllFuel (old new : List Char) : Nat → List Char → List Char
  | 0, s => s
  | f + 1, s =>
    match s with
    | [] => []
    | c :: rest =>
      if old.isPrefixOf s then new ++ replaceAllFuel old new f (s.drop old.length)
      else c :: replaceAllFuel old new f rest

/-- Model of Go `strings.ReplaceAll(s, old, new)`.  An empty `old` matches at
the beginning and after every character, as in Go. -/
def goReplaceAll (s old new : String) : String :=
  match old.toList with
  | [] => ⟨new.toList ++ s.toList.flatMap (fun c => c :: new.toList)⟩
  | o :: os => ⟨replaceAllFuel (o :: os) new.toList s.toList.length s.toList⟩

/-- Decimal digit character for `d < 10`. -/
def digitCh (d : Nat) : Char := Char.ofNat (48 + d)

/-- Fuel-indexed decimal printer: correct whenever `n < fuel`. -/
def natDecAux : Nat → Nat → List Char
  | 0, _ => []
  | f + 1, n =>
    if n < 10 then [digitCh n]
    else natDecAux f (n / 10) ++ [digitCh (n % 10)]

/-- Decimal digits of a natural number, most significant first. -/
def natDecChars (n : Nat) : List Char := natDecAux (n + 1) n

/-- Model of Go `fmt.Sprintf("%d", i)` for an `int` value. -/
def intDec (i : Int) : String :=
  if i < 0 then ⟨'-' :: natDecChars (-i).toNat⟩ else ⟨natDecChars i.toNat⟩

/-- Numeric value of an ASCII digit character. -/
def charDigit? (c : Char) : Option Nat :=
  if 48 ≤ c.toNat ∧ c.toNat ≤ 57 then some (c.toNat - 48) else none

/-- Value of a non-empty all-digit character list, `none` otherwise. -/
def digitsVal? (cs : List Char) : Option Nat :=
  match cs with
  | [] => none
  | _ =>
    cs.foldl
      (fun acc c =>
        match acc, charDigit? c with
        | some a, some d => some (10 * a + d)
        | _, _ => none)
      (some 0)

/-- Model of Go `strconv.Atoi`: optional sign, non-empty digits, 64-bit
signed range check. -/
def goAtoi (s : String) : Option Int :=
  let cs := s.toList
  let neg : Bool := cs.head? = some '-'
  let ds := if cs.head? = some '-' ∨ cs.head? = some '+' then cs.tail else cs
  match digitsVal? ds with
  | none => none
  | some v =>
    let i : Int := if neg then -(v : Int) else (v : Int)
    if -(2 ^ 63) ≤ i ∧ i ≤ 2 ^ 63 - 1 then some i else none

/-- Six-bit value of a character in the standard base64 alphabet. -/
def b64StdVal? (c : Char) : Option Nat :=
  if 'A' ≤ c ∧ c ≤ 'Z' then some (c.toNat - 65)
  else if 'a' ≤ c ∧ c ≤ 'z' then some (c.toNat - 97 + 26)
  else if '0' ≤ c ∧ c ≤ '9' then some (c.toNat - 48 + 52)
  else if c = '+' then some 62
  else if c = '/' then some 63
  else none

/-- Six-bit value of a character in the URL-safe base64 alphabet. -/
def b64UrlVal? (c : Char) : Option Nat :=
  if 'A' ≤ c ∧ c ≤ 'Z' then some (c.toNat - 65)
  else if 'a' ≤ c ∧ c ≤ 'z' then some (c.toNat - 97 + 26)
  else if '0' ≤ c ∧ c ≤ '9' then some (c.toNat - 48 + 52)
  else if c = '-' then some 62
  else if c = '_' then some 63
  else none

/-- Decode base64 quanta (4 chars to 3 bytes) with unpadded remainder handling
as in Go: a final quantum of 2 or 3 characters yields 1 or 2 bytes, a final
quantum of 1 character is corrupt.  Unused trailing bits are ignored (Go's
non-strict mode). -/
def b64Quanta (val? : Char → Option Nat) : List Char → Option (List Nat)
  | [] => some []
  | a :: b :: c :: d :: rest => do
    let va ← val? a
    let vb ← val? b
    let vc ← val? c
    let vd ← val? d
    let tail ← b64Quanta val? rest
    pure ([va * 4 + vb / 16, vb % 16 * 16 + vc / 4, vc % 4 * 64 + vd] ++ tail)
  | [a, b, c] => do
    let va ← val? a
    let vb ← val? b
    let vc ← val? c
    pure [va * 4 + vb / 16, vb % 16 * 16 + vc / 4]
  | [a, b] => do
    let va ← val? a
    let vb ← val? b
    pure [va * 4 + vb / 16]
  | [_] => none

/-- Count and remove trailing `=` padding characters. -/
def dropPad (cs : List Char) : List Char × Nat :=
  let rpad := cs.reverse.takeWhile (fun c => c = '=')
  (cs.take (cs.length - rpad.length), rpad.length)

/-- Model of Go `base64.StdEncoding.DecodeString`: CR/LF are ignored, length
must be a multiple of four, `=` only as one or two final padding characters. -/
def goBase64StdDecode (s : String) : Option (List Nat) :=
  let cs := s.toList.filter fun c => c ≠ '\r' ∧ c ≠ '\n'
  if cs.length % 4 ≠ 0 then none
  else
    let p := dropPad cs
    if p.2 > 2 then none else b64Quanta b64StdVal? p.1

/-- Model of Go `base64.RawURLEncoding.DecodeString`: CR/LF are ignored, no
padding accepted (`=` is not in the alphabet), any remainder length other
than one is decoded. -/
def goBase64RawURLDecode (s : String) : Option (List Nat) :=
  b64Quanta b64UrlVal? (s.toList.filter fun c => c ≠ '\r' ∧ c ≠ '\n')

/-- Go `string(bytes)` on decoded base64 output, modelled byte-per-char
(exact for the ASCII payloads subscription links carry). -/
def bytesToStr (bs : List Nat) : String :=
  ⟨bs.map Char.ofNat⟩

/-- Hex digit value for percent-escapes. -/
def hexVal? (c : Char) : Option Nat :=
  if '0' ≤ c ∧ c ≤ '9' then some (c.toNat - 48)
  else if 'a' ≤ c ∧ c ≤ 'f' then some (c.toNat - 97 + 10)
  else if 'A' ≤ c ∧ c ≤ 'F' then some (c.toNat - 65 + 10)
  else none

/-- Fuel-indexed percent-escape decoder: `%XY` becomes the byte `16*X+Y`,
an ill-formed escape is an error, everything else passes through.  When
`plusSpace` is set, `+` decodes to a space (query component decoding). -/
def pctDecodeFuel (plusSpace : Bool) : Nat → List Char → Option (List Char)
  | 0, cs => some cs
  | f + 1, cs =>
    match cs with
    | [] => some []
    | '%' :: a :: b :: rest => do
      let va ← hexVal? a
      let vb ← hexVal? b
      let tail ← pctDecodeFuel plusSpace f rest
      pure (Char.ofNat (16 * va + vb) :: tail)
    | '%' :: _ => none
    | c :: rest => do
      let tail ← pctDecodeFuel plusSpace f rest
      pure ((if plusSpace ∧ c = '+' then ' ' else c) :: tail)

/-- Model of Go `url.PathUnescape` (no plus-to-space conversion). -/
def goPathUnescape (s : String) : Option String :=
  (pctDecodeFuel false s.toList.length s.toList).map fun cs => ⟨cs⟩

/-- Model of Go `url.QueryUnescape` (plus decodes to space). -/
def goQueryUnescape (s : String) : Option String :=
  (pctDecodeFuel true s.toList.length s.toList).map fun cs => ⟨cs⟩

/-- Model of a parsed `net/url.URL` restricted to the authority-form URIs
produced by subscription links (`scheme://[userinfo@]host[:port][/path][?query][#fragment]`,
no IPv6 bracket hosts).  `userRaw` is the raw userinfo (Go re-escapes it for
`User.String()`; on the escape-free inputs considered that is the identity),
`username`/`password` are the unescaped credentials. -/
structure GoURL where
  scheme : String
  hasUser : Bool
  userRaw : String
  username : String
  password : Option String
  host : String
  port : String
  path : String
  rawQuery : String
  fragment : String
deriving DecidableEq, Repr

/-- Model of Go `net/url`'s host/port split: the part after the last colon is
the port and must be all digits (possibly empty); a non-numeric port is a
parse error; no colon means an empty port. -/
def splitHostPort? (cs : List Char) : Option (List Char × List Char) :=
  match splitLast? ':' cs with
  | none => some (cs, [])
  | some (h, p) => if p.all fun c => c.isDigit then some (h, p) else none

/-- Model of Go `url.Parse` on authority-form URIs (see `GoURL`).  Fragment is
cut at the first `#` and percent-decoded, query at the first `?`, the
authority ends at the first `/`, userinfo at the last `@` inside the
authority; userinfo splits at its first `:` into username and password, both
percent-decoded. -/
def goUrlParse (s : String) : Option GoURL := do
  let cs := s.toList
  let (beforeFrag, frag) :=
    match splitFirst? '#' cs with
    | some (a, b) => (a, b)
    | none => (cs, [])
  let fragment ← pctDecodeFuel false frag.length frag
  let (beforeQuery, rawQuery) :=
    match splitFirst? '?' beforeFrag with
    | some (a, b) => (a, b)
    | none => (beforeFrag, [])
  let (scheme, rest) ← splitFirst? ':' beforeQuery
  match rest with
  | '/' :: '/' :: authPath =>
    let (authority, path) :=
      match splitFirst? '/' authPath with
      | some (a, b) => (a, '/' :: b)
      | none => (authPath, [])
    let (userRaw, hostPort) :=
      match splitLast? '@' authority with
      | some (u, hp) => (some u, hp)
      | none => (none, authority)
    let (host, port) ← splitHostPort? hostPort
    match userRaw with
    | none =>
      pure ⟨⟨scheme⟩, false, "", "", none, ⟨host⟩, ⟨port⟩, ⟨path⟩, ⟨rawQuery⟩, ⟨fragment⟩⟩
    | some u =>
      match splitFirst? ':' u with
      | none => do
        let un ← pctDecodeFuel false u.length u
        pure ⟨⟨scheme⟩, true, ⟨u⟩, ⟨un⟩, none, ⟨host⟩, ⟨port⟩, ⟨path⟩, ⟨rawQuery⟩, ⟨fragment⟩⟩
      | some (un, pw) => do
        let und ← pctDecodeFuel false un.length un
        let pwd ← pctDecodeFuel false pw.length pw
        pure ⟨⟨scheme⟩, true, ⟨u⟩, ⟨und⟩, some ⟨pwd⟩, ⟨host⟩, ⟨port⟩, ⟨path⟩, ⟨rawQuery⟩,
          ⟨fragment⟩⟩
  | _ => none

/-- Model of Go `(*url.URL).Hostname()` (no bracket stripping needed in the
modelled domain). -/
def GoURL.hostname (u : GoURL) : String := u.host

/-- Model of `(*url.Userinfo).String()` for the URL's user component
(empty when there is no userinfo). -/
def GoURL.userString (u : GoURL) : String :=
  if u.hasUser then u.userRaw else ""

/-- Model of `(*url.URL).Query().Get(key)`: first `key=value` pair of the
query whose key matches, query-unescaped; `""` when absent or on a bad
escape (Go's `Query()` drops ill-formed pairs). -/
def GoURL.queryGet (u : GoURL) (key : String) : String :=
  let pairs := (splitAll '&' u.rawQuery.toList).filterMap fun kv =>
    match splitFirst? '=' kv with
    | some (k, v) => do
      let kd ← goQueryUnescape ⟨k⟩
      let vd ← goQueryUnescape ⟨v⟩
      pure (kd, vd)
    | none => do
      let kd ← goQueryUnescape ⟨kv⟩
      pure (kd, "")
  match pairs.find? fun kv => kv.1 = key with
  | some kv => kv.2
  | none => ""

/-- JSON whitespace skipping. -/
def skipWs (cs : List Char) : List Char :=
  cs.dropWhile fun c => c = ' ' ∨ c = '\t' ∨ c = '\n' ∨ c = '\r'

/-- Fuel-indexed JSON string body (after the opening quote): returns the
decoded characters and the input after the closing quote. -/
def jsonStrBody : Nat → List Char → Option (List Char × List Char)
  | 0, _ => none
  | f + 1, cs =>
    match cs with
    | [] => none
    | '"' :: rest => some ([], rest)
    | '\\' :: esc =>
      match esc with
      | 'u' :: a :: b :: c :: d :: rest => do
        let va ← hexVal? a
        let vb ← hexVal? b
        let vc ← hexVal? c
        let vd ← hexVal? d
        let tail ← jsonStrBody f rest
        pure (Char.ofNat (va * 4096 + vb * 256 + vc * 16 + vd) :: tail.1, tail.2)
      | e :: rest => do
        let c ←
          match e with
          | '"' => some '"'
          | '\\' => some '\\'
          | '/' => some '/'
          | 'n' => some '\n'
          | 't' => some '\t'
          | 'r' => some '\r'
          | 'b' => some (Char.ofNat 8)
          | 'f' => some (Char.ofNat 12)
          | _ => none
        let tail ← jsonStrBody f rest
        pure (c :: tail.1, tail.2)
      | [] => none
    | c :: rest => do
      let tail ← jsonStrBody f rest
      pure (c :: tail.1, tail.2)

/-- Fuel-indexed member list of a flat JSON object of string values,
starting at the first key quote; consumes through the closing brace. -/
def jsonMembers : Nat → List Char → Option (List (String × String) × List Char)
  | 0, _ => none
  | f + 1, cs =>
    match skipWs cs with
    | '"' :: rest => do
      let kb ← jsonStrBody rest.length rest
      match skipWs kb.2 with
      | ':' :: rest2 =>
        match skipWs rest2 with
        | '"' :: rest3 => do
          let vb ← jsonStrBody rest3.length rest3
          match skipWs vb.2 with
          | ',' :: rest4 => do
            let tail ← jsonMembers f rest4
            pure ((⟨kb.1⟩, ⟨vb.1⟩) :: tail.1, tail.2)
          | c :: rest4 => if c = rbrace then some ([((⟨kb.1⟩ : String), (⟨vb.1⟩ : String))], rest4) else none
          | [] => none
        | _ => none
      | _ => none
    | _ => none

/-- Model of `encoding/json.Unmarshal` into the VMess config struct,
restricted to flat JSON objects whose values are all strings — the shape of
every `vmess://` payload (the struct's fields are all `string`; a non-string
value for one of them is an unmarshal error in Go too). -/
def jsonFlatParse (s : String) : Option (List (String × String)) :=
  match skipWs s.toList with
  | c :: rest =>
    if c = lbrace then
      match skipWs rest with
      | c2 :: rest2 =>
        if c2 = rbrace then (if (skipWs rest2).isEmpty then some [] else none)
        else
          match jsonMembers (c2 :: rest2).length (c2 :: rest2) with
          | some (ms, rest3) => if (skipWs rest3).isEmpty then some ms else none
          | none => none
      | [] => none
    else none
  | [] => none

/-- Field lookup on an unmarshalled flat object: later duplicate keys
overwrite earlier ones, as in `encoding/json`; absent keys give the zero
value `""`. -/
def jGet (fields : List (String × String)) (key : String) : String :=
  match fields.reverse.find? (fun kv => kv.1 = key) with
  | some kv => kv.2
  | none => ""

/-- The universal proxy record of `internal/domain/proxy.Proxy`, with Go zero
values as field defaults.  The `ID` field (`uuid.New()` at parse time) and
the `CreatedAt`/`UpdatedAt` timestamps are nondeterministic and carried by no
claim, so they are omitted; `Type`, `Network` and `TLS` are the string
typedefs of the source. -/
structure Proxy where
  typ : String := ""
  name : String := ""
  server : String := ""
  port : Int := 0
  password : String := ""
  username : String := ""
  method : String := ""
  uuid : String := ""
  aid : Int := 0
  security : String := ""
  network : String := ""
  tls : String := ""
  sni : String := ""
  host : String := ""
  path : String := ""
  headers : List (String × String) := []
  plugin : String := ""
  pluginOpts : String := ""
  udp : Bool := false
  skipCertVerify : Bool := false
  alpn : List String := []
  congestion : String := ""
  upMbps : Int := 0
  downMbps : Int := 0
  obfs : String := ""
  obfsParam : String := ""
  protocol : String := ""
  protocolParam : String := ""
deriving DecidableEq, Repr

/-- `SSParser.Support`. -/
def ssSupport (content : String) : Bool := goStartsWith content "ss://"

/-- `SSParser.parseLegacy`: `METHOD:PASSWORD@HOST:PORT`, split at the first
`@` and the first `:` on each side. -/
def ssParseLegacy (decoded : String) : Except String (List Proxy) :=
  match splitFirst? '@' decoded.toList with
  | none => .error "invalid shadowsocks legacy format"
  | some (p0, p1) =>
    match splitFirst? ':' p0 with
    | none => .error "invalid method and password format"
    | some (m, pw) =>
      match splitFirst? ':' p1 with
      | none => .error "invalid server and port format"
      | some (srv, prt) =>
        match goAtoi ⟨prt⟩ with
        | none => .error "invalid port"
        | some port =>
          .ok [{ typ := "ss", name := "SS-" ++ (⟨srv⟩ : String), server := ⟨srv⟩,
                 port := port, method := ⟨m⟩, password := ⟨pw⟩, udp := true }]

/-- `SSParser.parseSIP002`: URL-shaped form.  The userinfo is only
path-unescaped (never base64-decoded) before being split at its first `:`. -/
def ssParseSIP002 (content : String) : Except String (List Proxy) :=
  match goUrlParse ("ss://" ++ content) with
  | none => .error "invalid SIP002 URL"
  | some u =>
    match goPathUnescape u.userString with
    | none => .error "invalid user info"
    | some userInfo =>
      match splitFirst? ':' userInfo.toList with
      | none => .error "invalid method and password format"
      | some (m, pw) =>
        match goAtoi u.port with
        | none => .error "invalid port"
        | some port =>
          let name := if u.fragment = "" then "SS-" ++ u.hostname else u.fragment
          .ok [{ typ := "ss", name := name, server := u.hostname, port := port,
                 method := ⟨m⟩, password := ⟨pw⟩, plugin := u.queryGet "plugin",
                 pluginOpts := u.queryGet "plugin-opts", udp := true }]

/-- `SSParser.Parse`: strip `ss://`, try URL-safe base64 on the whole
remainder, then standard base64, then fall back to SIP002. -/
def ssParse (content : String) : Except String (List Proxy) :=
  if ¬ ssSupport content then .error "invalid shadowsocks URL format"
  else
    let rest := goTrimPre content "ss://"
    match goBase64RawURLDecode rest with
    | some decoded => ssParseLegacy (bytesToStr decoded)
    | none =>
      match goBase64StdDecode rest with
      | some decoded => ssParseLegacy (bytesToStr decoded)
      | none => ssParseSIP002 rest

/-- `VMessParser.Parse`: strip `vmess://`, base64-decode (URL-safe then
standard), JSON-decode, then lift the config fields into a proxy. -/
def vmessParse (content : String) : Except String (List Proxy) :=
  if ¬ goStartsWith content "vmess://" then .error "invalid vmess URL format"
  else
    let rest := goTrimPre content "vmess://"
    let decoded? :=
      match goBase64RawURLDecode rest with
      | some d => some d
      | none => goBase64StdDecode rest
    match decoded? with
    | none => .error "failed to decode base64"
    | some bytes =>
      match jsonFlatParse (bytesToStr bytes) with
      | none => .error "failed to parse vmess config"
      | some fields =>
        match goAtoi (jGet fields "port") with
        | none => .error "invalid port"
        | some port =>
          let aid := match goAtoi (jGet fields "aid") with
            | some a => a
            | none => 0
          let add := jGet fields "add"
          let ps := jGet fields "ps"
          let name := if ps = "" then "VMess-" ++ add else ps
          let network :=
            match goToLower (jGet fields "net") with
            | "udp" => "udp"
            | "tcp,udp" => "tcp,udp"
            | _ => "tcp"
          let tls := if goToLower (jGet fields "tls") = "tls" then "require" else "none"
          let host := jGet fields "host"
          let alpnStr := jGet fields "alpn"
          .ok [{ typ := "vmess", name := name, server := add, port := port,
                 uuid := jGet fields "id", aid := aid, method := jGet fields "scy",
                 network := network, tls := tls, sni := jGet fields "sni", host := host,
                 path := jGet fields "path",
                 headers := if host ≠ "" then [("Host", host)] else [],
                 alpn := if alpnStr ≠ "" then
                     (splitAll ',' alpnStr.toList).map (fun g => (⟨g⟩ : String))
                   else [],
                 udp := network = "udp" ∨ network = "tcp,udp" }]

/-- `VLESSParser.Parse`: URL-shaped; the `Atoi` error on the port is
discarded, leaving port `0`. -/
def vlessParse (content : String) : Except String (List Proxy) :=
  if ¬ goStartsWith content "vless://" then .error "invalid vless URL format"
  else
    match goUrlParse content with
    | none => .error "failed to parse vless URL"
    | some u =>
      let port := match goAtoi u.port with
        | some p => p
        | none => 0
      let name := if u.fragment = "" then "VLESS-" ++ u.hostname else u.fragment
      .ok [{ typ := "vless", name := name, server := u.hostname, port := port,
             uuid := u.username, udp := true }]

/-- Values of a decoded Clash YAML mapping (the shapes `parseProxyMap`
reads: scalars and nested mappings). -/
inductive YVal where
  | str (s : String)
  | int (n : Int)
  | bool (b : Bool)
  | obj (fields : List (String × YVal))
  | list (items : List YVal)

/-- Mapping lookup on a decoded YAML map (keys unique in a YAML mapping). -/
def yFind (m : List (String × YVal)) (k : String) : Option YVal :=
  match m.find? (fun kv => kv.1 = k) with
  | some kv => some kv.2
  | none => none

/-- `lo.ValueOr(m, k, dflt).(string)`: the default when the key is absent.
A present value of another type panics in Go and is outside the modelled
domain. -/
def yStr (m : List (String × YVal)) (k : String) (dflt : String) : String :=
  match yFind m k with
  | some (.str s) => s
  | _ => dflt

/-- `lo.ValueOr(m, k, dflt).(int)` (see `yStr` for scope). -/
def yInt (m : List (String × YVal)) (k : String) (dflt : Int) : Int :=
  match yFind m k with
  | some (.int n) => n
  | _ => dflt

/-- `lo.ValueOr(m, k, dflt).(bool)` (see `yStr` for scope). -/
def yBool (m : List (String × YVal)) (k : String) (dflt : Bool) : Bool :=
  match yFind m k with
  | some (.bool b) => b
  | _ => dflt

/-- `m[k].(map[string]interface{})` with the comma-ok form: `none` when the
key is absent or not a mapping. -/
def yObj (m : List (String × YVal)) (k : String) : Option (List (String × YVal)) :=
  match yFind m k with
  | some (.obj o) => some o
  | _ => none

/-- `ClashParser.parseProxyMap`: route one decoded `proxies:` entry by its
`type` key.  The `name` key's value is taken as is (empty when absent; there
is no fallback in this branch of the code). -/
def clashParseProxyMap (m : List (String × YVal)) : Except String Proxy :=
  let ptype := yStr m "type" ""
  if ptype = "" then .error "proxy type is missing"
  else
    let base : Proxy :=
      { typ := ptype, name := yStr m "name" "", server := yStr m "server" "",
        port := yInt m "port" 0, udp := yBool m "udp" false }
    match ptype with
    | "ss" =>
      let node := { base with method := yStr m "cipher" "", password := yStr m "password" "" }
      match yObj m "plugin-opts" with
      | some opts =>
        let node := { node with plugin := yStr m "plugin" "" }
        if node.plugin = "obfs" then
          .ok { node with pluginOpts :=
            "obfs=" ++ yStr opts "mode" "" ++ ";obfs-host=" ++ yStr opts "host" "" }
        else .ok node
      | none => .ok node
    | "ssr" =>
      .ok { base with
        method := yStr m "cipher" "", password := yStr m "password" "",
        protocol := yStr m "protocol" "", protocolParam := yStr m "protocol-param" "",
        obfs := yStr m "obfs" "", obfsParam := yStr m "obfs-param" "" }
    | "vmess" =>
      let node := { base with
        uuid := yStr m "uuid" "", aid := yInt m "alterId" 0,
        method := yStr m "cipher" "", network := yStr m "network" "tcp",
        tls := if yBool m "tls" false then "require" else base.tls,
        sni := yStr m "servername" "" }
      match yObj m "ws-opts" with
      | some wsOpts =>
        let node := { node with path := yStr wsOpts "path" "" }
        match yObj wsOpts "headers" with
        | some headers => .ok { node with host := yStr headers "Host" "" }
        | none => .ok node
      | none => .ok node
    | "vless" =>
      let node := { base with
        uuid := yStr m "uuid" "", network := yStr m "network" "tcp",
        tls := if yBool m "tls" false then "require" else base.tls,
        sni := yStr m "servername" "" }
      match yObj m "grpc-opts" with
      | some grpcOpts => .ok { node with path := yStr grpcOpts "grpc-service-name" "" }
      | none => .ok node
    | "trojan" =>
      .ok { base with
        password := yStr m "password" "", sni := yStr m "sni" "",
        skipCertVerify := yBool m "skip-cert-verify" false }
    | "http" =>
      .ok { base with
        username := yStr m "username" "", password := yStr m "password" "",
        tls := if yBool m "tls" false then "require" else base.tls }
    | "https" =>
      .ok { base with
        username := yStr m "username" "", password := yStr m "password" "",
        tls := if yBool m "tls" false then "require" else base.tls }
    | "snell" => .ok { base with password := yStr m "psk" "" }
    | "hysteria" =>
      .ok { base with
        password := yStr m "password" "", sni := yStr m "sni" "",
        skipCertVerify := yBool m "skip-cert-verify" false }
    | "hysteria2" =>
      .ok { base with
        password := yStr m "password" "", sni := yStr m "sni" "",
        skipCertVerify := yBool m "skip-cert-verify" false }
    | _ => .error ("unsupported proxy type: " ++ ptype)

/-- `ClashParser.Parse` after YAML decoding: entries that fail to parse are
silently skipped (YAML decoding itself is the external `yaml.Unmarshal`; its
output, the list of proxy mappings, is this function's input). -/
def clashParse (maps : List (List (String × YVal))) : List Proxy :=
  maps.filterMap fun m => (clashParseProxyMap m).toOption

/-- A rename rule (Go fields `Match`/`Replace`; `match` is reserved in Lean). -/
structure RenameRule where
  pat : String := ""
  replace : String := ""
deriving DecidableEq, Repr

/-- An emoji rule (Go fields `Match`/`Emoji`). -/
structure EmojiRule where
  pat : String := ""
  emoji : String := ""
deriving DecidableEq, Repr

/-- The option fields of the convert request that `Service.applyFilters`
reads. -/
structure TransformOptions where
  includeRemarks : List String := []
  excludeRemarks : List String := []
  renameRules : List RenameRule := []
  emojiRules : List EmojiRule := []
  sort : Bool := false
deriving DecidableEq, Repr

/-- Include step of `Service.applyFilters`: with a non-empty pattern list,
keep proxies whose name contains some pattern. -/
def includeStep (pats : List String) (ps : List Proxy) : List Proxy :=
  if pats.isEmpty then ps
  else ps.filter fun p => pats.any fun pat => goContains p.name pat

/-- Exclude step: with a non-empty pattern list, drop proxies whose name
contains any pattern. -/
def excludeStep (pats : List String) (ps : List Proxy) : List Proxy :=
  if pats.isEmpty then ps
  else ps.filter fun p => !(pats.any fun pat => goContains p.name pat)

/-- Rename step applied to one name: each rule is a literal
`strings.ReplaceAll`, in order. -/
def renameName (rules : List RenameRule) (n : String) : String :=
  rules.foldl (fun acc r => goReplaceAll acc r.pat r.replace) n

/-- Rename step of `Service.applyFilters` (the in-place name mutation is
modelled functionally). -/
def renameStep (rules : List RenameRule) (ps : List Proxy) : List Proxy :=
  if rules.isEmpty then ps
  else ps.map fun p => { p with name := renameName rules p.name }

/-- Emoji step applied to one name: every rule whose pattern occurs in the
current name prepends its emoji and a space. -/
def emojiName (rules : List EmojiRule) (n : String) : String :=
  rules.foldl (fun acc r => if goContains acc r.pat then r.emoji ++ " " ++ acc else acc) n

/-- Emoji step of `Service.applyFilters`. -/
def emojiStep (rules : List EmojiRule) (ps : List Proxy) : List Proxy :=
  if rules.isEmpty then ps
  else ps.map fun p => { p with name := emojiName rules p.name }

/-- Name comparison used by the sort step (`result[i].Name < result[j].Name`
drives the sort; the resulting order is non-decreasing by `≤`). -/
def nameLe (p q : Proxy) : Prop := p.name ≤ q.name

instance : DecidableRel nameLe := fun p q => inferInstanceAs (Decidable (p.name ≤ q.name))

instance : IsTotal Proxy nameLe := ⟨fun p q => le_total p.name q.name⟩

instance : IsTrans Proxy nameLe := ⟨fun _ _ _ h h2 => le_trans h h2⟩

/-- Sort step of `Service.applyFilters`.  Go's `sort.Slice` guarantees the
sorted order but is documented as unstable; it is modelled here by a stable
insertion sort, which agrees with `sort.Slice` on the sorted multiset and
leaves already-sorted input unchanged (as the Go 1.21 pdqsort also does). -/
def sortStep (doSort : Bool) (ps : List Proxy) : List Proxy :=
  if doSort then ps.insertionSort nameLe else ps

/-- The dedup key `fmt.Sprintf("%s:%d:%s", p.Server, p.Port, p.Type)`. -/
def dedupKey (p : Proxy) : String :=
  p.server ++ ":" ++ intDec p.port ++ ":" ++ p.typ

/-- The dedup loop of `Service.applyFilters` with its `seen` set. -/
def dedupAux (seen : List String) : List Proxy → List Proxy
  | [] => []
  | p :: rest =>
    if seen.contains (dedupKey p) then dedupAux seen rest
    else p :: dedupAux (dedupKey p :: seen) rest

/-- Dedup step of `Service.applyFilters`: keep the first occurrence of each
key. -/
def dedupStep (ps : List Proxy) : List Proxy := dedupAux [] ps

/-- The first five steps of `Service.applyFilters` (everything before
dedup), in source order. -/
def preDedup (opts : TransformOptions) (ps : List Proxy) : List Proxy :=
  sortStep opts.sort
    (emojiStep opts.emojiRules
      (renameStep opts.renameRules
        (excludeStep opts.excludeRemarks
          (includeStep opts.includeRemarks ps))))

/-- `Service.applyFilters`: include, exclude, rename, emoji, sort, dedup. -/
def applyFilters (opts : TransformOptions) (ps : List Proxy) : List Proxy :=
  dedupStep (preDedup opts ps)

/-- The `(server, port, type)` triple of a proxy. -/
def tripleOf (p : Proxy) : String × Int × String := (p.server, p.port, p.typ)

/-- Reference first-occurrence filter keyed by an arbitrary projection. -/
def firstOccurAux {β : Type} [DecidableEq β] (f : Proxy → β) (seen : List β) :
    List Proxy → List Proxy
  | [] => []
  | p :: rest =>
    if f p ∈ seen then firstOccurAux f seen rest
    else p :: firstOccurAux f (f p :: seen) rest

/-- Keep exactly the first occurrence of each `f`-value, in order. -/
def firstOccurBy {β : Type} [DecidableEq β] (f : Proxy → β) (ps : List Proxy) : List Proxy :=
  firstOccurAux f [] ps

/-- A traffic rule of `internal/domain/ruleset` (fields used by the
generators). -/
structure Rule where
  typ : String := ""
  value : String := ""
  proxy : String := ""
  noResolve : Bool := false
  policy : String := ""
deriving DecidableEq, Repr

/-- A rule set: an enable-gated ordered bundle of rules. -/
structure RuleSet where
  name : String := ""
  rules : List Rule := []
  enabled : Bool := false
deriving DecidableEq, Repr

/-- A proxy group as passed to the generators. -/
structure ProxyGroup where
  name : String := ""
  typ : String := ""
  proxies : List String := []
  url : String := ""
  interval : Int := 0
  tolerance : Int := 0
  filter : String := ""
  strategy : String := ""
deriving DecidableEq, Repr

/-- `generator.GenerateOptions` (fields the embedded generators read). -/
structure GenerateOptions where
  proxyGroups : List ProxyGroup := []
  rules : List String := []
  baseTemplate : String := ""
  sortProxies : Bool := false
  udpEnabled : Bool := false
  customOptions : List (String × YVal) := []

/-- `ClashGenerator.convertRule`: map a rule to its Clash line, `""` for
unsupported kinds. -/
def convertRule (r : Rule) : String :=
  match r.typ with
  | "DOMAIN" => "DOMAIN," ++ r.value ++ "," ++ r.proxy
  | "DOMAIN-SUFFIX" => "DOMAIN-SUFFIX," ++ r.value ++ "," ++ r.proxy
  | "DOMAIN-KEYWORD" => "DOMAIN-KEYWORD," ++ r.value ++ "," ++ r.proxy
  | "IP-CIDR" => "IP-CIDR," ++ r.value ++ "," ++ r.proxy
  | "IP-CIDR6" => "IP-CIDR6," ++ r.value ++ "," ++ r.proxy
  | "GEOIP" => "GEOIP," ++ r.value ++ "," ++ r.proxy
  | "FINAL" => "MATCH," ++ r.proxy
  | "MATCH" => "MATCH," ++ r.proxy
  | _ => ""

/-- `ClashGenerator.buildRules`: enabled rule sets in order (skipping rules
that convert to `""`), then the custom rules, then `MATCH,DIRECT` when still
empty. -/
def clashBuildRules (rulesets : List RuleSet) (customRules : List String) : List String :=
  let fromSets := rulesets.foldl
    (fun acc rs =>
      if rs.enabled then
        rs.rules.foldl
          (fun acc2 r => if convertRule r = "" then acc2 else acc2 ++ [convertRule r]) acc
      else acc)
    []
  let withCustom := fromSets ++ customRules
  if withCustom.isEmpty then ["MATCH,DIRECT"] else withCustom

/-- `SurgeGenerator.buildProxyLine`. -/
def surgeProxyLine (p : Proxy) : String :=
  match p.typ with
  | "ss" =>
    String.intercalate " = "
      [p.name, "ss", p.server, intDec p.port, "encrypt-method=" ++ p.method,
        "password=" ++ p.password]
  | "vmess" =>
    String.intercalate " = "
      [p.name, "vmess", p.server, intDec p.port, "username=" ++ p.uuid, "ws=true",
        "ws-path=" ++ p.path, "tls=true"]
  | "trojan" =>
    String.intercalate " = "
      [p.name, "trojan", p.server, intDec p.port, "password=" ++ p.password, "tls=true"]
  | _ => "# Unsupported proxy type: " ++ p.typ

/-- `SurgeGenerator.buildProxyGroupLine`. -/
def surgeGroupLine (g : ProxyGroup) : String :=
  String.intercalate ", "
    ([g.name, "=", g.typ]
      ++ (if g.url ≠ "" then ["url=" ++ g.url] else [])
      ++ (if g.interval > 0 then ["interval=" ++ intDec g.interval] else [])
      ++ g.proxies)

/-- `SurgeGenerator.buildRuleLine`: unsupported kinds degrade to a comment. -/
def surgeRuleLine (r : Rule) : String :=
  match r.typ with
  | "DOMAIN" => "DOMAIN," ++ r.value ++ "," ++ r.proxy
  | "DOMAIN-SUFFIX" => "DOMAIN-SUFFIX," ++ r.value ++ "," ++ r.proxy
  | "DOMAIN-KEYWORD" => "DOMAIN-KEYWORD," ++ r.value ++ "," ++ r.proxy
  | "IP-CIDR" => "IP-CIDR," ++ r.value ++ "," ++ r.proxy
  | "IP-CIDR6" => "IP-CIDR6," ++ r.value ++ "," ++ r.proxy
  | "FINAL" => "FINAL," ++ r.proxy
  | "MATCH" => "FINAL," ++ r.proxy
  | _ => "# Unsupported rule type: " ++ r.typ

/-- One line per rule of the enabled rule sets, in order (Surge's `[Rule]`
loop body). -/
def surgeRuleLines (rulesets : List RuleSet) : List String :=
  rulesets.foldl
    (fun acc rs => if rs.enabled then acc ++ rs.rules.map surgeRuleLine else acc) []

/-- Concatenate each line followed by a newline. -/
def joinLines (lines : List String) : String :=
  lines.foldl (fun acc line => acc ++ line ++ "\n") ""

/-- `SurgeGenerator.Generate`: the builder's section-by-section output.
`options.Rules` (the custom rules) is never read, and `FINAL,DIRECT` is
written unconditionally after the rule-set lines. -/
def surgeGenerate (proxies : List Proxy) (rulesets : List RuleSet)
    (options : GenerateOptions) : String :=
  "#!MANAGED-CONFIG https://example.com interval=86400 strict=false\n\n"
    ++ "[General]\nloglevel = notify\ndns-server = 8.8.8.8, 1.1.1.1\n"
    ++ "skip-proxy = 127.0.0.1, 192.168.0.0/16\n\n"
    ++ "[Proxy]\n" ++ joinLines (proxies.map surgeProxyLine) ++ "\n"
    ++ "[Proxy Group]\n" ++ joinLines (options.proxyGroups.map surgeGroupLine) ++ "\n"
    ++ "[Rule]\n" ++ joinLines (surgeRuleLines rulesets)
    ++ "FINAL,DIRECT\n"

/-- ASCII whitespace for `strings.TrimSpace` on plugin-option fragments. -/
def isWs (c : Char) : Bool :=
  c = ' ' ∨ c = '\t' ∨ c = '\n' ∨ c = '\r'

/-- Model of Go `strings.TrimSpace` (ASCII whitespace; the plugin-option
strings it is applied to are ASCII). -/
def goTrimSpace (s : String) : String :=
  ⟨((s.toList.dropWhile isWs).reverse.dropWhile isWs).reverse⟩

/-- `generator.parsePluginOpts`: split on `;`, then each fragment at its
first `=`; fragments without `=` are dropped.  The Go map is modelled as the
association list in insertion order. -/
def parsePluginOpts (opts : String) : List (String × YVal) :=
  (splitAll ';' opts.toList).filterMap fun part =>
    match splitFirst? '=' part with
    | some (k, v) => some (goTrimSpace ⟨k⟩, YVal.str (goTrimSpace ⟨v⟩))
    | none => none

/-- `ClashGenerator.buildProxies` for a single proxy: the Clash-idiomatic
key/value map, keys listed in the source's assignment order. -/
def clashProxyMap (p : Proxy) : List (String × YVal) :=
  let base : List (String × YVal) :=
    [("name", .str p.name), ("type", .str p.typ), ("server", .str p.server),
      ("port", .int p.port)]
  let variant : List (String × YVal) :=
    match p.typ with
    | "ss" =>
      [("cipher", .str p.method), ("password", .str p.password)]
        ++ (if p.plugin ≠ "" then
              [("plugin", .str p.plugin)]
                ++ (if p.pluginOpts ≠ "" then
                      [("plugin-opts", .obj (parsePluginOpts p.pluginOpts))]
                    else [])
            else [])
    | "ssr" =>
      [("cipher", .str p.method), ("password", .str p.password),
        ("protocol", .str p.protocol), ("obfs", .str p.obfs)]
        ++ (if p.protocolParam ≠ "" then [("protocol-param", .str p.protocolParam)] else [])
        ++ (if p.obfsParam ≠ "" then [("obfs-param", .str p.obfsParam)] else [])
    | "vmess" =>
      [("uuid", .str p.uuid), ("alterId", .int p.aid), ("cipher", .str p.method)]
        ++ (if p.network ≠ "" then [("network", .str (goToLower p.network))] else [])
        ++ (if p.tls ≠ "none" then
              [("tls", .bool true)]
                ++ (if p.sni ≠ "" then [("servername", .str p.sni)] else [])
                ++ (if p.skipCertVerify then [("skip-cert-verify", .bool true)] else [])
            else [])
        ++ (if p.path ≠ "" ∨ p.host ≠ "" then
              [("ws-opts", .obj [("path", .str p.path),
                ("headers", .obj [("Host", .str p.host)])])]
            else [])
    | "vless" =>
      [("uuid", .str p.uuid), ("flow", .str "")]
        ++ (if p.tls ≠ "none" then
              [("tls", .bool true)]
                ++ (if p.sni ≠ "" then [("servername", .str p.sni)] else [])
            else [])
    | "trojan" =>
      [("password", .str p.password)]
        ++ (if p.sni ≠ "" then [("sni", .str p.sni)] else [])
        ++ (if p.skipCertVerify then [("skip-cert-verify", .bool true)] else [])
    | "hysteria" =>
      [("auth", .str p.password), ("up", .str (intDec p.upMbps ++ " Mbps")),
        ("down", .str (intDec p.downMbps ++ " Mbps"))]
        ++ (if p.sni ≠ "" then [("sni", .str p.sni)] else [])
        ++ (if p.skipCertVerify then [("skip-cert-verify", .bool true)] else [])
    | "hysteria2" =>
      [("password", .str p.password)]
        ++ (if p.sni ≠ "" then [("sni", .str p.sni)] else [])
        ++ (if p.skipCertVerify then [("skip-cert-verify", .bool true)] else [])
    | "snell" => [("psk", .str p.password), ("version", .int 3)]
    | "http" => [("username", .str p.username), ("password", .str p.password)]
    | "https" =>
      [("username", .str p.username), ("password", .str p.password), ("tls", .bool true)]
        ++ (if p.sni ≠ "" then [("sni", .str p.sni)] else [])
    | _ => []
  base ++ variant ++ (if p.udp then [("udp", .bool true)] else [])

/-- `ClashGenerator.buildProxies` over the list. -/
def clashBuildProxies (proxies : List Proxy) : List (List (String × YVal)) :=
  proxies.map clashProxyMap

/-- The three default proxy groups synthesised when the options carry none. -/
def defaultProxyGroups : List ProxyGroup :=
  [{ name := "🚀 节点选择", typ := "select",
     proxies := ["♻️ 自动选择", "🔯 故障转移", "DIRECT"] },
   { name := "♻️ 自动选择", typ := "url-test", proxies := [],
     url := "http://www.gstatic.com/generate_204", interval := 300 },
   { name := "🔯 故障转移", typ := "fallback", proxies := [],
     url := "http://www.gstatic.com/generate_204", interval := 300 }]

/-- `ClashGenerator.buildProxyGroups` for a single group given the proxy
name list: explicit members first, then the filter-matching names (all names
when the filter is empty). -/
def clashGroupMap (proxyNames : List String) (g : ProxyGroup) : List (String × YVal) :=
  let members := g.proxies
    ++ (if g.filter ≠ "" then proxyNames.filter (fun n => goContains n g.filter)
        else proxyNames)
  [("name", .str g.name), ("type", .str g.typ),
    ("proxies", .list (members.map .str))]
    ++ (if g.url ≠ "" then [("url", .str g.url)] else [])
    ++ (if g.interval > 0 then [("interval", .int g.interval)] else [])
    ++ (if g.tolerance > 0 then [("tolerance", .int g.tolerance)] else [])

/-- `ClashGenerator.buildProxyGroups`. -/
def clashBuildProxyGroups (groups : List ProxyGroup) (proxies : List Proxy) :
    List (List (String × YVal)) :=
  let effective := if groups.isEmpty then defaultProxyGroups else groups
  effective.map (clashGroupMap (proxies.map fun p => p.name))

/-- The YAML document assembled by `ClashGenerator.Generate` before
marshaling: the three programmatic keys plus the custom options (a custom
option assigned under one of the three programmatic keys overwrites it, as
with a Go map; `clashConfigLookup` realises that semantics). -/
structure ClashConfig where
  proxies : List (List (String × YVal))
  proxyGroups : List (List (String × YVal))
  rules : List String
  custom : List (String × YVal)

/-- Final value of the assembled config map at a key: custom options are
assigned after the programmatic entries, so they win. -/
def clashConfigLookup (cfg : ClashConfig) (k : String) : Option YVal :=
  match yFind cfg.custom k with
  | some v => some v
  | none =>
    if k = "proxies" then some (.list (cfg.proxies.map .obj))
    else if k = "proxy-groups" then some (.list (cfg.proxyGroups.map .obj))
    else if k = "rules" then some (.list (cfg.rules.map .str))
    else none

/-- The programmatic configuration of `ClashGenerator.Generate`. -/
def clashConfig (proxies : List Proxy) (rulesets : List RuleSet)
    (options : GenerateOptions) : ClashConfig :=
  ⟨clashBuildProxies proxies, clashBuildProxyGroups options.proxyGroups proxies,
    clashBuildRules rulesets options.rules, options.customOptions⟩

/-- Outcome of `ClashGenerator.Generate`: either the base template's render
replaced everything, or the programmatic document is emitted
(`yaml.Marshal` of the plain-data map cannot fail and is kept structured
here). -/
inductive GenOutput where
  | rendered (s : String)
  | programmatic (cfg : ClashConfig)

/-- `ClashGenerator.Generate`.  `render` is the outcome of the external
`templateManager.RenderTemplate` call (the manager the service installs is
non-nil); it is consulted only when a base template is named, and only a
successful render replaces the programmatic output — its error is discarded
without aborting. -/
def clashGenerate (render : Except String String) (proxies : List Proxy)
    (rulesets : List RuleSet) (options : GenerateOptions) : Except String GenOutput :=
  if options.baseTemplate ≠ "" then
    match render with
    | .ok s => .ok (.rendered s)
    | .error _ => .ok (.programmatic (clashConfig proxies rulesets options))
  else .ok (.programmatic (clashConfig proxies rulesets options))

/-- The error record of `internal/pkg/errors`. -/
structure GoError where
  code : String
  message : String
  status : Int
deriving DecidableEq, Repr

/-- `errors.BadRequest`. -/
def badRequest (code message : String) : GoError := ⟨code, message, 400⟩

/-- `Service.fetchSubscriptions` after the concurrent fan-in: `results` is
one entry per URL (fetch-or-parse error, or that source's proxies) in channel
arrival order; failures are logged and skipped, and an empty union is the
`NO_PROXIES` bad request. -/
def fetchSubscriptions (results : List (Except String (List Proxy))) :
    Except GoError (List Proxy) :=
  let allProxies := results.foldl
    (fun acc r =>
      match r with
      | .ok ps => acc ++ ps
      | .error _ => acc)
    []
  if allProxies.isEmpty then
    .error (badRequest "NO_PROXIES" "no valid proxies found in subscriptions")
  else .ok allProxies

/-- The proxies of the successful sources, in arrival order. -/
def successProxies (results : List (Except String (List Proxy))) : List Proxy :=
  (results.filterMap Except.toOption).flatten

theorem strData_append (s t : String) : (s ++ t).data = s.data ++ t.data := by
  cases s; cases t; rfl

theorem strMk_ne_empty (c : Char) (cs : List Char) : (⟨c :: cs⟩ : String) ≠ "" := by
  intro h
  have : (⟨c :: cs⟩ : String).data = ("".data : List Char) := by rw [h]
  simp at this

theorem append_ne_empty_of_ne (s t : String) (c : Char) (cs : List Char)
    (h : s.data = c :: cs) : s ++ t ≠ "" := by
  intro he
  have : (s ++ t).data = ("".data : List Char) := by rw [he]
  rw [strData_append, h] at this
  simp at this

theorem digitCh_toNat {d : Nat} (h : d < 10) : (digitCh d).toNat = 48 + d := by
  interval_cases d <;> rfl

theorem digitCh_lt {d : Nat} (h : d < 10) : (digitCh d).toNat < 58 := by
  rw [digitCh_toNat h]; omega

theorem digitCh_ge {d : Nat} (h : d < 10) : 48 ≤ (digitCh d).toNat := by
  rw [digitCh_toNat h]; omega

theorem digitCh_ne_colon {d : Nat} (h : d < 10) : digitCh d ≠ ':' := by
  intro he
  have h1 := congrArg Char.toNat he
  rw [digitCh_toNat h] at h1
  have h2 : (':').toNat = 58 := rfl
  rw [h2] at h1
  omega

theorem digitCh_ne_minus {d : Nat} (h : d < 10) : digitCh d ≠ '-' := by
  intro he
  have h1 := congrArg Char.toNat he
  rw [digitCh_toNat h] at h1
  have h2 : ('-').toNat = 45 := rfl
  rw [h2] at h1
  omega

theorem digitCh_ne_plus {d : Nat} (h : d < 10) : digitCh d ≠ '+' := by
  intro he
  have h1 := congrArg Char.toNat he
  rw [digitCh_toNat h] at h1
  have h2 : ('+').toNat = 43 := rfl
  rw [h2] at h1
  omega

theorem charDigit?_digitCh {d : Nat} (h : d < 10) : charDigit? (digitCh d) = some d := by
  interval_cases d <;> rfl

theorem digitCh_inj {d e : Nat} (hd : d < 10) (he : e < 10) (h : digitCh d = digitCh e) :
    d = e := by
  have := congrArg Char.toNat h
  rw [digitCh_toNat hd, digitCh_toNat he] at this
  omega

theorem natDecAux_all_digits :
    ∀ (f n : Nat), ∀ c ∈ natDecAux f n, ∃ d, d < 10 ∧ c = digitCh d := by
  intro f
  induction f with
  | zero => intro n c hc; simp [natDecAux] at hc
  | succ f ih =>
    intro n c hc
    rw [natDecAux] at hc
    by_cases h : n < 10
    · rw [if_pos h] at hc
      simp at hc
      exact ⟨n, h, hc⟩
    · rw [if_neg h] at hc
      rcases List.mem_append.mp hc with h1 | h2
      · exact ih _ c h1
      · simp at h2
        exact ⟨n % 10, Nat.mod_lt _ (by omega), h2⟩

theorem natDecAux_cons :
    ∀ (f n : Nat), n < f → ∃ d tail, d < 10 ∧ natDecAux f n = digitCh d :: tail := by
  intro f
  induction f with
  | zero => omega
  | succ f ih =>
    intro n hn
    rw [natDecAux]
    by_cases h : n < 10
    · exact ⟨n, [], h, by rw [if_pos h]⟩
    · have hf : n / 10 < f := by omega
      obtain ⟨d, tail, hd, he⟩ := ih (n / 10) hf
      exact ⟨d, tail ++ [digitCh (n % 10)], hd, by rw [if_neg h, he]; rfl⟩

theorem digitsStep_append (cs : List Char) (d : Nat) (hd : d < 10) (a : Nat)
    (h : cs.foldl
      (fun acc c =>
        match acc, charDigit? c with
        | some x, some y => some (10 * x + y)
        | _, _ => none)
      (some a) = some (v : Nat)) :
    (cs ++ [digitCh d]).foldl
      (fun acc c =>
        match acc, charDigit? c with
        | some x, some y => some (10 * x + y)
        | _, _ => none)
      (some a) = some (10 * v + d) := by
  rw [List.foldl_append, h]
  simp [charDigit?_digitCh hd]

theorem natDecAux_foldl :
    ∀ (f n a : Nat), n < f →
      (natDecAux f n).foldl
        (fun acc c =>
          match acc, charDigit? c with
          | some x, some y => some (10 * x + y)
          | _, _ => none)
        (some a)
      = some (a * 10 ^ (natDecAux f n).length + n) := by
  intro f
  induction f with
  | zero => omega
  | succ f ih =>
    intro n a hn
    rw [natDecAux]
    by_cases h : n < 10
    · rw [if_pos h]
      simp [charDigit?_digitCh h]
      omega
    · rw [if_neg h]
      have hf : n / 10 < f := by omega
      have step := digitsStep_append (natDecAux f (n / 10)) (n % 10)
        (Nat.mod_lt _ (by omega)) a (ih (n / 10) a hf)
      rw [step]
      have : 10 * (a * 10 ^ (natDecAux f (n / 10)).length + n / 10) + n % 10
          = a * 10 ^ ((natDecAux f (n / 10)).length + 1) + n := by
        rw [pow_succ]
        have hmod := Nat.div_add_mod n 10
        ring_nf
        omega
      rw [List.length_append]
      simpa using this

theorem digitsVal?_natDecChars (n : Nat) : digitsVal? (natDecChars n) = some n := by
  obtain ⟨d, tail, hd, he⟩ := natDecAux_cons (n + 1) n (Nat.lt_succ_self n)
  have hv := natDecAux_foldl (n + 1) n 0 (Nat.lt_succ_self n)
  rw [he] at hv
  simp at hv
  rw [natDecChars, he]
  simpa [digitsVal?] using hv

theorem goAtoi_natDecChars (n : Nat) (h : n < 2 ^ 63) :
    goAtoi ⟨natDecChars n⟩ = some (n : Int) := by
  obtain ⟨d, tail, hd, he⟩ := natDecAux_cons (n + 1) n (Nat.lt_succ_self n)
  have hcs : (⟨natDecChars n⟩ : String).toList = digitCh d :: tail := by
    rw [natDecChars]
    exact he
  rw [goAtoi, hcs]
  have hne : ¬((digitCh d :: tail).head? = some '-' ∨ (digitCh d :: tail).head? = some '+') := by
    push_neg
    refine ⟨fun hx => ?_, fun hx => ?_⟩
    · exact digitCh_ne_minus hd (Option.some.inj hx)
    · exact digitCh_ne_plus hd (Option.some.inj hx)
  rw [if_neg hne]
  have hv : digitsVal? (digitCh d :: tail) = some n := by
    have := digitsVal?_natDecChars n
    rw [natDecChars, he] at this
    exact this
  rw [hv]
  have hb : ((digitCh d :: tail).head? = some '-') = False := by
    simp only [List.head?, eq_iff_iff, iff_false]
    intro hx
    exact digitCh_ne_minus hd (Option.some.inj hx)
  simp only [hb]
  have hrange : -(2 ^ 63 : Int) ≤ (n : Int) ∧ (n : Int) ≤ 2 ^ 63 - 1 := by
    constructor
    · have : (0 : Int) ≤ (n : Int) := Int.ofNat_nonneg n
      omega
    · have : (n : Int) < (2 ^ 63 : Nat) := by exact_mod_cast h
      simp at this
      omega
  simp only [decide_eq_true_eq, Bool.false_eq_true, if_false, if_pos hrange]

theorem natDecChars_inj {m n : Nat} (h : natDecChars m = natDecChars n) : m = n := by
  have hm := digitsVal?_natDecChars m
  rw [h] at hm
  have hn := digitsVal?_natDecChars n
  rw [hm] at hn
  exact Option.some.inj hn

theorem natDecChars_no_colon (n : Nat) : ':' ∉ natDecChars n := by
  intro hmem
  obtain ⟨d, hd, he⟩ := natDecAux_all_digits (n + 1) n _ hmem
  exact digitCh_ne_colon hd he.symm

theorem intDec_no_colon (i : Int) : ':' ∉ (intDec i).data := by
  rw [intDec]
  by_cases h : i < 0
  · rw [if_pos h]
    intro hmem
    rcases List.mem_cons.mp hmem with hc | hm
    · exact absurd hc.symm (by decide)
    · exact natDecChars_no_colon _ hm
  · rw [if_neg h]
    exact natDecChars_no_colon _

theorem intDec_inj {i j : Int} (h : intDec i = intDec j) : i = j := by
  have hdata := congrArg String.data h
  rw [intDec, intDec] at hdata
  by_cases hi : i < 0 <;> by_cases hj : j < 0
  · rw [if_pos hi, if_pos hj] at hdata
    simp only [List.cons.injEq] at hdata
    have := natDecChars_inj hdata.2
    omega
  · rw [if_pos hi, if_neg hj] at hdata
    obtain ⟨d, tail, hd, he⟩ := natDecAux_cons (j.toNat + 1) j.toNat (Nat.lt_succ_self _)
    rw [show natDecChars j.toNat = digitCh d :: tail from he] at hdata
    simp only [List.cons.injEq] at hdata
    exact absurd hdata.1.symm (digitCh_ne_minus hd)
  · rw [if_neg hi, if_pos hj] at hdata
    obtain ⟨d, tail, hd, he⟩ := natDecAux_cons (i.toNat + 1) i.toNat (Nat.lt_succ_self _)
    rw [show natDecChars i.toNat = digitCh d :: tail from he] at hdata
    simp only [List.cons.injEq] at hdata
    exact absurd hdata.1 (digitCh_ne_minus hd)
  · rw [if_neg hi, if_neg hj] at hdata
    have := natDecChars_inj hdata
    omega

theorem append_sep_inj (c : Char) :
    ∀ (a₁ : List Char) {b₁ a₂ b₂ : List Char}, a₁ ++ c :: b₁ = a₂ ++ c :: b₂ →
      c ∉ b₁ → c ∉ b₂ → a₁ = a₂ ∧ b₁ = b₂ := by
  intro a₁
  induction a₁ with
  | nil =>
    intro b₁ a₂ b₂ h h1 h2
    cases a₂ with
    | nil => simpa using h
    | cons x t =>
      simp only [List.nil_append, List.cons_append, List.cons.injEq] at h
      obtain ⟨rfl, hb⟩ := h
      exact absurd (by rw [hb]; exact List.mem_append_right t (List.mem_cons_self c b₂)) h1
  | cons x t ih =>
    intro b₁ a₂ b₂ h h1 h2
    cases a₂ with
    | nil =>
      simp only [List.nil_append, List.cons_append, List.cons.injEq] at h
      obtain ⟨rfl, hb⟩ := h
      exact absurd (by rw [← hb]; exact List.mem_append_right t (List.mem_cons_self x b₁)) h2
    | cons y u =>
      simp only [List.cons_append, List.cons.injEq] at h
      obtain ⟨rfl, hr⟩ := h
      obtain ⟨ha, hb⟩ := ih hr h1 h2
      exact ⟨by rw [ha], hb⟩

theorem sep_assoc_help (a b c : List Char) (s : Char) :
    a ++ s :: (b ++ s :: c) = (a ++ s :: b) ++ s :: c := by
  simp

theorem dedupKey_data (p : Proxy) :
    (dedupKey p).data
      = (p.server.data ++ ':' :: (intDec p.port).data) ++ ':' :: p.typ.data := by
  rw [dedupKey]
  simp only [strData_append]
  have hcolon : (":" : String).data = [':'] := rfl
  simp [hcolon]

theorem dedupKey_eq_iff {p q : Proxy} (hp : ':' ∉ p.typ.data) (hq : ':' ∉ q.typ.data) :
    dedupKey p = dedupKey q ↔ tripleOf p = tripleOf q := by
  constructor
  · intro h
    have hdata := congrArg String.data h
    rw [dedupKey_data, dedupKey_data] at hdata
    obtain ⟨h1, htyp⟩ := append_sep_inj ':' _ hdata hp hq
    obtain ⟨hsrv, hport⟩ :=
      append_sep_inj ':' _ h1 (intDec_no_colon p.port) (intDec_no_colon q.port)
    have hps : p.server = q.server := String.ext hsrv
    have hpp : p.port = q.port := intDec_inj (String.ext hport)
    have hpt : p.typ = q.typ := String.ext htyp
    rw [tripleOf, tripleOf, hps, hpp, hpt]
  · intro h
    have h1 : p.server = q.server := congrArg (fun t => t.1) h
    have h2 : p.port = q.port := congrArg (fun t => t.2.1) h
    have h3 : p.typ = q.typ := congrArg (fun t => t.2.2) h
    rw [dedupKey, dedupKey, h1, h2, h3]

theorem dedupAux_sublist : ∀ (ps : List Proxy) (seen : List String),
    List.Sublist (dedupAux seen ps) ps := by
  intro ps
  induction ps with
  | nil => intro seen; simp [dedupAux]
  | cons p rest ih =>
    intro seen
    rw [dedupAux]
    by_cases h : seen.contains (dedupKey p)
    · rw [if_pos h]
      exact (ih seen).cons p
    · rw [if_neg h]
      exact (ih _).cons₂ p

theorem dedupAux_mem {x : Proxy} : ∀ {ps : List Proxy} {seen : List String},
    x ∈ dedupAux seen ps → x ∈ ps :=
  fun {ps seen} h => (dedupAux_sublist ps seen).subset h

theorem dedupAux_not_seen : ∀ (ps : List Proxy) (seen : List String) (p : Proxy),
    p ∈ dedupAux seen ps → dedupKey p ∉ seen := by
  intro ps
  induction ps with
  | nil => intro seen p hp; simp [dedupAux] at hp
  | cons q rest ih =>
    intro seen p hp
    rw [dedupAux] at hp
    by_cases h : seen.contains (dedupKey q)
    · rw [if_pos h] at hp
      exact ih seen p hp
    · rw [if_neg h] at hp
      rcases List.mem_cons.mp hp with rfl | hm
      · exact fun hmem => h (List.elem_iff.mpr hmem)
      · intro hmem
        exact ih _ p hm (List.mem_cons_of_mem _ hmem)

theorem dedupAux_pairwise : ∀ (ps : List Proxy) (seen : List String),
    (dedupAux seen ps).Pairwise fun a b => dedupKey a ≠ dedupKey b := by
  intro ps
  induction ps with
  | nil => intro seen; simp [dedupAux]
  | cons q rest ih =>
    intro seen
    rw [dedupAux]
    by_cases h : seen.contains (dedupKey q)
    · rw [if_pos h]
      exact ih seen
    · rw [if_neg h]
      refine List.Pairwise.cons (fun b hb hke => ?_) (ih _)
      have := dedupAux_not_seen rest _ b hb
      exact this (by rw [← hke]; exact List.mem_cons_self _ _)

theorem dedupAux_eq_self : ∀ (ps : List Proxy) (seen : List String),
    (∀ p ∈ ps, dedupKey p ∉ seen) →
    (ps.Pairwise fun a b => dedupKey a ≠ dedupKey b) →
    dedupAux seen ps = ps := by
  intro ps
  induction ps with
  | nil => intro seen _ _; rfl
  | cons p rest ih =>
    intro seen hseen hpw
    rw [dedupAux]
    have hnc : ¬ seen.contains (dedupKey p) := fun hc =>
      hseen p (List.mem_cons_self _ _) (List.elem_iff.mp hc)
    rw [if_neg hnc]
    have hhead := List.pairwise_cons.mp hpw
    rw [ih (dedupKey p :: seen) ?_ hhead.2]
    intro x hx
    intro hmem
    rcases List.mem_cons.mp hmem with he | hs
    · exact hhead.1 x hx he.symm
    · exact hseen x (List.mem_cons_of_mem _ hx) hs

theorem dedupStep_idem (ps : List Proxy) : dedupStep (dedupStep ps) = dedupStep ps :=
  dedupAux_eq_self _ [] (fun _ _ => List.not_mem_nil _) (dedupAux_pairwise ps [])

theorem mem_sortStep {x : Proxy} {srt : Bool} {ps : List Proxy} :
    x ∈ sortStep srt ps ↔ x ∈ ps := by
  rw [sortStep]
  by_cases h : srt = true
  · rw [if_pos h]
    exact List.mem_insertionSort nameLe
  · rw [if_neg h]

theorem sortStep_of_sorted {srt : Bool} {l : List Proxy} (h : l.Sorted nameLe) :
    sortStep srt l = l := by
  rw [sortStep]
  by_cases hs : srt = true
  · rw [if_pos hs]
    exact h.insertionSort_eq
  · rw [if_neg hs]

theorem sortStep_sorted {l : List Proxy} (h : l.Sorted nameLe) (srt : Bool) :
    (sortStep srt l).Sorted nameLe := by
  rw [sortStep]
  by_cases hs : srt = true
  · rw [if_pos hs]
    exact List.sorted_insertionSort nameLe l
  · rw [if_neg hs]
    exact h

theorem sortStep_true_sorted (l : List Proxy) : (sortStep true l).Sorted nameLe := by
  rw [sortStep, if_pos rfl]
  exact List.sorted_insertionSort nameLe l

theorem mem_includeStep {x : Proxy} {pats : List String} {ps : List Proxy}
    (h : x ∈ includeStep pats ps) : x ∈ ps := by
  rw [includeStep] at h
  by_cases he : pats.isEmpty
  · rwa [if_pos he] at h
  · rw [if_neg he] at h
    exact List.mem_filter.mp h |>.1

theorem mem_excludeStep {x : Proxy} {pats : List String} {ps : List Proxy}
    (h : x ∈ excludeStep pats ps) : x ∈ ps := by
  rw [excludeStep] at h
  by_cases he : pats.isEmpty
  · rwa [if_pos he] at h
  · rw [if_neg he] at h
    exact List.mem_filter.mp h |>.1

theorem includeStep_pred {x : Proxy} {pats : List String} {ps : List Proxy}
    (h : x ∈ includeStep pats ps) (hne : ¬ pats.isEmpty = true) :
    (pats.any fun pat => goContains x.name pat) = true := by
  rw [includeStep, if_neg hne] at h
  exact List.mem_filter.mp h |>.2

theorem excludeStep_pred {x : Proxy} {pats : List String} {ps : List Proxy}
    (h : x ∈ excludeStep pats ps) (hne : ¬ pats.isEmpty = true) :
    (!(pats.any fun pat => goContains x.name pat)) = true := by
  rw [excludeStep, if_neg hne] at h
  exact List.mem_filter.mp h |>.2

theorem includeStep_eq_self {pats : List String} {l : List Proxy}
    (h : ∀ p ∈ l, (pats.any fun pat => goContains p.name pat) = true) :
    includeStep pats l = l := by
  rw [includeStep]
  by_cases he : pats.isEmpty
  · rw [if_pos he]
  · rw [if_neg he]
    exact List.filter_eq_self.mpr h

theorem excludeStep_eq_self {pats : List String} {l : List Proxy}
    (h : ∀ p ∈ l, (!(pats.any fun pat => goContains p.name pat)) = true) :
    excludeStep pats l = l := by
  rw [excludeStep]
  by_cases he : pats.isEmpty
  · rw [if_pos he]
  · rw [if_neg he]
    exact List.filter_eq_self.mpr h

theorem sortStep_false (l : List Proxy) : sortStep false l = l := rfl

/-- C4 amended: with the rename and emoji rule lists empty, applying the
Transform Stage twice yields the same list as applying it once, for any
include/exclude patterns and either sort setting (include, exclude, the sort
of an already-sorted list and dedup are individually idempotent).  With a
non-empty emoji rule list the stage is not idempotent: the emoji step
prepends its emoji again on every application, and a rename rule whose
replacement contains its pattern regrows the name likewise. -/
theorem transformNoNameRulesIdem (inc exc : List String) (srt : Bool) (ps : List Proxy) :
    applyFilters ⟨inc, exc, [], [], srt⟩ (applyFilters ⟨inc, exc, [], [], srt⟩ ps)
      = applyFilters ⟨inc, exc, [], [], srt⟩ ps := by
  have hre : ∀ l : List Proxy, renameStep [] l = l := fun _ => rfl
  have hem : ∀ l : List Proxy, emojiStep [] l = l := fun _ => rfl
  simp only [applyFilters, preDedup]
  rw [hre, hre, hem, hem]
  set l0 := excludeStep exc (includeStep inc ps) with hl0
  set out := dedupStep (sortStep srt l0) with hout
  have hmem_out : ∀ x ∈ out, x ∈ l0 := by
    intro x hx
    exact mem_sortStep.mp (dedupAux_mem hx)
  have h1 : includeStep inc out = out := by
    by_cases hinc : inc.isEmpty
    · rw [includeStep, if_pos hinc]
    · refine includeStep_eq_self fun p hp => ?_
      exact includeStep_pred (mem_excludeStep (hmem_out p hp)) hinc
  have h2 : excludeStep exc out = out := by
    by_cases hexc : exc.isEmpty
    · rw [excludeStep, if_pos hexc]
    · refine excludeStep_eq_self fun p hp => ?_
      exact excludeStep_pred (hmem_out p hp) hexc
  have h3 : sortStep srt out = out := by
    by_cases hs : srt = true
    · subst hs
      have hsorted : (sortStep true l0).Sorted nameLe := sortStep_true_sorted l0
      have hout_sorted : out.Sorted nameLe := hsorted.sublist (dedupAux_sublist _ [])
      exact sortStep_of_sorted hout_sorted
    · rw [sortStep, if_neg hs]
  rw [h1, h2, h3]
  exact dedupStep_idem _

theorem dedupAux_eq_firstOccurAux :
    ∀ (ps : List Proxy) (seenK : List String) (seenT : List (String × Int × String)),
      (∀ p ∈ ps, (dedupKey p ∈ seenK ↔ tripleOf p ∈ seenT)) →
      (∀ p ∈ ps, ∀ q ∈ ps, (dedupKey p = dedupKey q ↔ tripleOf p = tripleOf q)) →
      dedupAux seenK ps = firstOccurAux tripleOf seenT ps := by
  intro ps
  induction ps with
  | nil => intro seenK seenT _ _; rfl
  | cons p rest ih =>
    intro seenK seenT hseen hpair
    rw [dedupAux, firstOccurAux]
    have hiff := hseen p (List.mem_cons_self _ _)
    by_cases hk : dedupKey p ∈ seenK
    · have ht : tripleOf p ∈ seenT := hiff.mp hk
      rw [if_pos (List.elem_iff.mpr hk), if_pos ht]
      exact ih seenK seenT
        (fun q hq => hseen q (List.mem_cons_of_mem _ hq))
        (fun a ha b hb =>
          hpair a (List.mem_cons_of_mem _ ha) b (List.mem_cons_of_mem _ hb))
    · have ht : tripleOf p ∉ seenT := fun hmem => hk (hiff.mpr hmem)
      rw [if_neg (fun hc => hk (List.elem_iff.mp hc)), if_neg ht]
      congr 1
      refine ih _ _ (fun q hq => ?_)
        (fun a ha b hb =>
          hpair a (List.mem_cons_of_mem _ ha) b (List.mem_cons_of_mem _ hb))
      constructor
      · intro hmem
        rcases List.mem_cons.mp hmem with he | hs
        · exact List.mem_cons.mpr (Or.inl
            ((hpair q (List.mem_cons_of_mem _ hq) p (List.mem_cons_self _ _)).mp he))
        · exact List.mem_cons.mpr (Or.inr
            ((hseen q (List.mem_cons_of_mem _ hq)).mp hs))
      · intro hmem
        rcases List.mem_cons.mp hmem with he | hs
        · exact List.mem_cons.mpr (Or.inl
            ((hpair q (List.mem_cons_of_mem _ hq) p (List.mem_cons_self _ _)).mpr he))
        · exact List.mem_cons.mpr (Or.inr
            ((hseen q (List.mem_cons_of_mem _ hq)).mpr hs))

theorem dedupStep_eq_firstOccur (l : List Proxy) (h : ∀ p ∈ l, ':' ∉ p.typ.data) :
    dedupStep l = firstOccurBy tripleOf l :=
  dedupAux_eq_firstOccurAux l [] [] (by simp)
    (fun p hp q hq => dedupKey_eq_iff (h p hp) (h q hq))

theorem renameStep_typ {q : Proxy} {rules : List RenameRule} {l : List Proxy}
    (h : q ∈ renameStep rules l) : ∃ p, p ∈ l ∧ q.typ = p.typ := by
  rw [renameStep] at h
  by_cases he : rules.isEmpty
  · rw [if_pos he] at h
    exact ⟨q, h, rfl⟩
  · rw [if_neg he] at h
    obtain ⟨p, hp, he2⟩ := List.mem_map.mp h
    exact ⟨p, hp, by rw [← he2]⟩

theorem emojiStep_typ {q : Proxy} {rules : List EmojiRule} {l : List Proxy}
    (h : q ∈ emojiStep rules l) : ∃ p, p ∈ l ∧ q.typ = p.typ := by
  rw [emojiStep] at h
  by_cases he : rules.isEmpty
  · rw [if_pos he] at h
    exact ⟨q, h, rfl⟩
  · rw [if_neg he] at h
    obtain ⟨p, hp, he2⟩ := List.mem_map.mp h
    exact ⟨p, hp, by rw [← he2]⟩

theorem preDedup_typ_mem (opts : TransformOptions) (ps : List Proxy) :
    ∀ q ∈ preDedup opts ps, ∃ p, p ∈ ps ∧ q.typ = p.typ := by
  intro q hq
  rw [preDedup] at hq
  have hq2 := mem_sortStep.mp hq
  obtain ⟨a, ha, hta⟩ := emojiStep_typ hq2
  obtain ⟨b, hb, htb⟩ := renameStep_typ ha
  exact ⟨b, mem_includeStep (mem_excludeStep hb), by rw [hta, htb]⟩

/-- C8: the dedup step runs last in the Transform Stage, and — whenever no
proxy type contains a colon, which holds for every type the parsers emit —
the composed stage keeps exactly the first occurrence of each
`(server, port, type)` triple of the post-sort list, in order and with its
own name: `applyFilters` equals the canonical first-occurrence filter by
triple applied after the five preceding steps. -/
theorem applyFiltersDedupTriple (opts : TransformOptions) (ps : List Proxy)
    (h : ∀ p ∈ ps, ':' ∉ p.typ.data) :
    applyFilters opts ps = firstOccurBy tripleOf (preDedup opts ps) := by
  rw [applyFilters]
  refine dedupStep_eq_firstOccur _ fun q hq => ?_
  obtain ⟨p, hp, htyp⟩ := preDedup_typ_mem opts ps q hq
  rw [htyp]
  exact h p hp

theorem fetchAccum : ∀ (results : List (Except String (List Proxy))) (acc : List Proxy),
    results.foldl
      (fun acc r =>
        match r with
        | .ok ps => acc ++ ps
        | .error _ => acc)
      acc
    = acc ++ successProxies results := by
  intro results
  induction results with
  | nil => intro acc; simp [successProxies]
  | cons r rest ih =>
    intro acc
    cases r with
    | ok ps => simp [ih, successProxies, Except.toOption]
    | error e => simp [ih, successProxies, Except.toOption]

/-- C9: for any per-URL outcomes (in any fan-in arrival order), the fetch
stage returns exactly the concatenation of the successful sources' proxies —
failed sources are skipped — and fails with the `NO_PROXIES` bad request
precisely when that union is empty (every source failed, or the surviving
sources parsed to no proxies). -/
theorem fetchSubscriptionsSpec (results : List (Except String (List Proxy))) :
    fetchSubscriptions results
      = if successProxies results = [] then
          .error (badRequest "NO_PROXIES" "no valid proxies found in subscriptions")
        else .ok (successProxies results) := by
  rw [fetchSubscriptions]
  simp only [fetchAccum results [], List.nil_append]
  by_cases h : successProxies results = []
  · rw [if_pos (List.isEmpty_iff.mpr h), if_pos h]
  · rw [if_neg (fun hc => h (List.isEmpty_iff.mp hc)), if_neg h]

theorem clashRulesInner : ∀ (rules : List Rule) (acc : List String),
    rules.foldl
      (fun acc2 r => if convertRule r = "" then acc2 else acc2 ++ [convertRule r]) acc
    = acc ++ rules.filterMap
        (fun r => if convertRule r = "" then none else some (convertRule r)) := by
  intro rules
  induction rules with
  | nil => intro acc; simp
  | cons r rest ih =>
    intro acc
    by_cases h : convertRule r = ""
    · simp only [List.foldl_cons, if_pos h, List.filterMap_cons, h]
      simp [ih]
    · simp only [List.foldl_cons, if_neg h, List.filterMap_cons,
        if_neg h]
      rw [ih]
      simp [h]

theorem clashRulesOuter : ∀ (rulesets : List RuleSet) (acc : List String),
    rulesets.foldl
      (fun acc rs =>
        if rs.enabled then
          rs.rules.foldl
            (fun acc2 r => if convertRule r = "" then acc2 else acc2 ++ [convertRule r]) acc
        else acc)
      acc
    = acc ++ (rulesets.filter fun rs => rs.enabled).flatMap
        (fun rs => rs.rules.filterMap
          fun r => if convertRule r = "" then none else some (convertRule r)) := by
  intro rulesets
  induction rulesets with
  | nil => intro acc; simp
  | cons rs rest ih =>
    intro acc
    by_cases h : rs.enabled
    · simp only [List.foldl_cons, if_pos h, List.filter_cons, h]
      rw [clashRulesInner, ih]
      simp [h]
    · simp only [List.foldl_cons, if_neg h, List.filter_cons]
      rw [ih]

theorem clashBuildRulesSpec (rulesets : List RuleSet) (customRules : List String) :
    clashBuildRules rulesets customRules
      = (let base := ((rulesets.filter fun rs => rs.enabled).flatMap
            fun rs => rs.rules.filterMap
              fun r => if convertRule r = "" then none else some (convertRule r))
          ++ customRules;
        if base.isEmpty then ["MATCH,DIRECT"] else base) := by
  rw [clashBuildRules]
  simp only [clashRulesOuter, List.nil_append]

theorem goEndsWith_append (a suf : String) : goEndsWith (a ++ suf) suf = true := by
  rw [goEndsWith]
  have h : (a ++ suf).toList = a.toList ++ suf.toList := strData_append a suf
  rw [h, List.isSuffixOf_iff_suffix]
  exact List.suffix_append _ _

theorem surgeIgnoresOtherOptions (ps : List Proxy) (rulesets : List RuleSet)
    (opts : GenerateOptions) (altRules : List String) :
    surgeGenerate ps rulesets opts = surgeGenerate ps rulesets { opts with rules := altRules } := by
  cases opts
  rfl

theorem surgeAlwaysFinal (ps : List Proxy) (rulesets : List RuleSet)
    (opts : GenerateOptions) :
    goEndsWith (surgeGenerate ps rulesets opts) "FINAL,DIRECT\n" = true := by
  rw [surgeGenerate]
  exact goEndsWith_append _ _

/-- C10: when the base-template render fails with any error, the Clash
generator silently falls back to the programmatic configuration (proxies,
proxy-groups, rules plus custom options) and reports no error — this also
covers the case of no base template being named; and only a successful
render replaces the programmatic output (with a base template named, a
successful render is returned verbatim). -/
theorem clashGenerateFallbackCore (e s : String) (proxies : List Proxy)
    (rulesets : List RuleSet) (options : GenerateOptions) :
    clashGenerate (.error e) proxies rulesets options
      = .ok (.programmatic (clashConfig proxies rulesets options))
    ∧ clashGenerate (.ok s) proxies rulesets { options with baseTemplate := "base" }
      = .ok (.rendered s) := by
  constructor
  · rw [clashGenerate]
    by_cases h : options.baseTemplate ≠ ""
    · rw [if_pos h]
    · rw [if_neg h]
  · cases options
    rfl

theorem splitFirst?_append_sep (sep : Char) :
    ∀ (xs ys : List Char), sep ∉ xs → splitFirst? sep (xs ++ sep :: ys) = some (xs, ys) := by
  intro xs
  induction xs with
  | nil =>
    intro ys _
    simp [splitFirst?]
  | cons x t ih =>
    intro ys hmem
    have hx : ¬ x = sep := fun he => hmem (he ▸ List.mem_cons_self x t)
    rw [List.cons_append, splitFirst?, if_neg hx,
      ih ys (fun hc => hmem (List.mem_cons_of_mem _ hc))]

theorem ssParseLegacyNoRangeCheck (n : Nat) (h : n < 2 ^ 63) :
    ssParseLegacy ⟨"aes-256-gcm:test@127.0.0.1:".toList ++ natDecChars n⟩
      = .ok [{ typ := "ss", name := "SS-127.0.0.1", server := "127.0.0.1",
               port := (n : Int), method := "aes-256-gcm", password := "test",
               udp := true }] := by
  have hshape : "aes-256-gcm:test@127.0.0.1:".toList ++ natDecChars n
      = "aes-256-gcm:test".toList ++ '@' :: ("127.0.0.1".toList ++ ':' :: natDecChars n) := by
    have : "aes-256-gcm:test@127.0.0.1:".toList
        = "aes-256-gcm:test".toList ++ '@' :: ("127.0.0.1".toList ++ [':']) := by decide
    rw [this]
    simp
  have hsplit1 : splitFirst? '@' ("aes-256-gcm:test@127.0.0.1:".toList ++ natDecChars n)
      = some ("aes-256-gcm:test".toList, "127.0.0.1".toList ++ ':' :: natDecChars n) := by
    rw [hshape]
    exact splitFirst?_append_sep '@' _ _ (by decide)
  have hsplit2 : splitFirst? ':' ("aes-256-gcm:test".toList)
      = some ("aes-256-gcm".toList, "test".toList) := by decide
  have hsplit3 : splitFirst? ':' ("127.0.0.1".toList ++ ':' :: natDecChars n)
      = some ("127.0.0.1".toList, natDecChars n) :=
    splitFirst?_append_sep ':' _ _ (by decide)
  rw [ssParseLegacy]
  have htl : (⟨"aes-256-gcm:test@127.0.0.1:".toList ++ natDecChars n⟩ : String).toList
      = "aes-256-gcm:test@127.0.0.1:".toList ++ natDecChars n := rfl
  rw [htl]
  simp only [hsplit1, hsplit2, hsplit3, goAtoi_natDecChars n h]
  rfl

theorem ssParseLegacy_name {d : String} {l : List Proxy} {p : Proxy}
    (h : ssParseLegacy d = .ok l) (hp : p ∈ l) : p.name ≠ "" := by
  rw [ssParseLegacy] at h
  split at h
  · simp at h
  · split at h
    · simp at h
    · split at h
      · simp at h
      · split at h
        · simp at h
        · injection h with hl
          rw [← hl] at hp
          rw [List.mem_singleton.mp hp]
          exact append_ne_empty_of_ne "SS-" _ 'S' ['S', '-'] rfl

theorem ssParseSIP002_name {d : String} {l : List Proxy} {p : Proxy}
    (h : ssParseSIP002 d = .ok l) (hp : p ∈ l) : p.name ≠ "" := by
  rw [ssParseSIP002] at h
  split at h
  · simp at h
  · split at h
    · simp at h
    · split at h
      · simp at h
      · split at h
        · simp at h
        · injection h with hl
          rw [← hl] at hp
          rw [List.mem_singleton.mp hp]
          simp only []
          split
          · exact append_ne_empty_of_ne "SS-" _ 'S' ['S', '-'] rfl
          · next hfrag => exact hfrag

theorem ssParse_name {content : String} {l : List Proxy} {p : Proxy}
    (h : ssParse content = .ok l) (hp : p ∈ l) : p.name ≠ "" := by
  rw [ssParse] at h
  split at h
  · simp at h
  · dsimp only [] at h
    split at h
    · exact ssParseLegacy_name h hp
    · split at h
      · exact ssParseLegacy_name h hp
      · exact ssParseSIP002_name h hp

theorem vmessParse_name {content : String} {l : List Proxy} {p : Proxy}
    (h : vmessParse content = .ok l) (hp : p ∈ l) : p.name ≠ "" := by
  rw [vmessParse] at h
  split at h
  · simp at h
  · dsimp only [] at h
    split at h
    · simp at h
    · split at h
      · simp at h
      · split at h
        · simp at h
        · injection h with hl
          rw [← hl] at hp
          rw [List.mem_singleton.mp hp]
          simp only []
          split
          · exact append_ne_empty_of_ne "VMess-" _ 'V' ['M', 'e', 's', 's', '-'] rfl
          · next hps => exact hps

/-- C1: parsing `ss://YWVzLTI1Ni1nY206dGVzdA==@127.0.0.1:8388#Test` is claimed
to yield one `ss` proxy with method `aes-256-gcm`, password `test`, name
`Test`; the code instead fails, because the whole remainder is not valid
base64 (it contains `@`, `.`, `#`) and the SIP002 branch path-unescapes but
never base64-decodes the userinfo, so `YWVzLTI1Ni1nY206dGVzdA==` contains no
`:` and the METHOD:PASSWORD split errors.  The parser's own unit test expects
this input to succeed, so the code contradicts its own test suite. -/
theorem ssParseScenarioAFails :
    ssParse "ss://YWVzLTI1Ni1nY206dGVzdA==@127.0.0.1:8388#Test"
      = .error "invalid method and password format" := by
  rfl

/-- C2 counterexample: `ss://` followed by the URL-safe base64 of
`aes-256-gcm:test@127.0.0.1:0` parses successfully and returns a proxy with
port `0`, so parsing does not fail on a port of 0 and a produced Proxy can
carry a port outside `[1,65535]`. -/
theorem ssParsePortZeroAccepted :
    ssParse "ss://YWVzLTI1Ni1nY206dGVzdEAxMjcuMC4wLjE6MA"
      = .ok [{ typ := "ss", name := "SS-127.0.0.1", server := "127.0.0.1", port := 0,
               method := "aes-256-gcm", password := "test", udp := true }]
      ∧ ¬(1 ≤ (0 : Int) ∧ (0 : Int) ≤ 65535) := by
  exact ⟨by rfl, by decide⟩

/-- C2 amended: parsers never range-check ports.  The SS legacy form accepts
every decimal port string that `strconv.Atoi` accepts (any value below
`2^63`, including 0 and values above 65535) and returns it verbatim in the
Proxy, and the VLESS parser discards the `Atoi` error entirely, returning
port `0` for a URI without a port. -/
theorem parsersNoPortRangeCheck (n : Nat) (h : n < 2 ^ 63) :
    ssParseLegacy ⟨"aes-256-gcm:test@127.0.0.1:".toList ++ natDecChars n⟩
      = .ok [{ typ := "ss", name := "SS-127.0.0.1", server := "127.0.0.1",
               port := (n : Int), method := "aes-256-gcm", password := "test",
               udp := true }]
    ∧ vlessParse "vless://uuid@example.com"
      = .ok [{ typ := "vless", name := "VLESS-example.com", server := "example.com",
               port := 0, uuid := "uuid", udp := true }] := by
  exact ⟨ssParseLegacyNoRangeCheck n h, by rfl⟩

/-- Witness for the amended C2 theorem at the out-of-range port 70000. -/
theorem parsersNoPortRangeCheck_witness :
    (70000 : Nat) < 2 ^ 63
    ∧ (ssParseLegacy ⟨"aes-256-gcm:test@127.0.0.1:".toList ++ natDecChars 70000⟩
        = .ok [{ typ := "ss", name := "SS-127.0.0.1", server := "127.0.0.1",
                 port := (70000 : Int), method := "aes-256-gcm", password := "test",
                 udp := true }]
      ∧ vlessParse "vless://uuid@example.com"
        = .ok [{ typ := "vless", name := "VLESS-example.com", server := "example.com",
                 port := 0, uuid := "uuid", udp := true }]) := by
  exact ⟨by norm_num, parsersNoPortRangeCheck 70000 (by norm_num)⟩

/-- C3 counterexample: a Clash `proxies:` entry that carries no `name` key is
accepted by the Clash parser and produces exactly one proxy whose name is
empty — there is no `<TYPE>-<server>` fallback in `parseProxyMap`. -/
theorem clashParseEmptyName :
    (clashParse [[("type", .str "ss"), ("server", .str "1.2.3.4"), ("port", .int 8388),
        ("cipher", .str "aes-256-gcm"), ("password", .str "x")]]).map (fun p => p.name)
      = [""] := by
  rfl

/-- C3 amended: the URI-scheme parsers do uphold the non-empty-name
invariant: every proxy returned by the SS parser or the VMess parser has a
non-empty name (the fragment or `ps` name when present, otherwise the
`SS-<server>` / `VMess-<server>` fallback); the Clash parser does not. -/
theorem uriParsersNameNonempty (content : String) (l : List Proxy) (p : Proxy)
    (h : ssParse content = .ok l ∨ vmessParse content = .ok l) (hp : p ∈ l) :
    p.name ≠ "" := by
  rcases h with h | h
  · exact ssParse_name h hp
  · exact vmessParse_name h hp

/-- Witness for the amended C3 theorem on a concrete legacy SS link. -/
theorem uriParsersNameNonempty_witness :
    ({ typ := "ss", name := "SS-127.0.0.1", server := "127.0.0.1", port := 0,
       method := "aes-256-gcm", password := "test", udp := true } : Proxy).name ≠ "" := by
  exact uriParsersNameNonempty "ss://YWVzLTI1Ni1nY206dGVzdEAxMjcuMC4wLjE6MA"
    [{ typ := "ss", name := "SS-127.0.0.1", server := "127.0.0.1", port := 0,
       method := "aes-256-gcm", password := "test", udp := true }]
    { typ := "ss", name := "SS-127.0.0.1", server := "127.0.0.1", port := 0,
      method := "aes-256-gcm", password := "test", udp := true }
    (Or.inl (by rfl)) (by simp)

/-- C4 counterexample: with one emoji rule whose pattern still occurs in the
prefixed name, running the Transform Stage twice prepends the emoji twice, so
the stage is not idempotent. -/
theorem transformEmojiNotIdem :
    applyFilters { emojiRules := [{ pat := "HK", emoji := "E" }] }
        (applyFilters { emojiRules := [{ pat := "HK", emoji := "E" }] }
          [{ typ := "ss", name := "HK", server := "a", port := 1 }])
      ≠ applyFilters { emojiRules := [{ pat := "HK", emoji := "E" }] }
          [{ typ := "ss", name := "HK", server := "a", port := 1 }] := by
  decide

/-- C6 counterexample: the Surge generator, on a non-empty enabled rule set
and a non-empty custom rule list, never emits the custom rule and still
appends the terminal `FINAL,DIRECT` — contradicting both halves of the
claimed rule emission (custom rules after rule sets; terminal only when the
list is empty). -/
theorem surgeRuleEmissionViolation :
    goContains
        (surgeGenerate []
          [{ name := "r", enabled := true,
             rules := [{ typ := "DOMAIN", value := "example.com", proxy := "Proxy" }] }]
          { rules := ["GEOIP,CN,DIRECT"] })
        "GEOIP,CN,DIRECT" = false
    ∧ goContains
        (surgeGenerate []
          [{ name := "r", enabled := true,
             rules := [{ typ := "DOMAIN", value := "example.com", proxy := "Proxy" }] }]
          { rules := ["GEOIP,CN,DIRECT"] })
        "DOMAIN,example.com,Proxy" = true
    ∧ goEndsWith
        (surgeGenerate []
          [{ name := "r", enabled := true,
             rules := [{ typ := "DOMAIN", value := "example.com", proxy := "Proxy" }] }]
          { rules := ["GEOIP,CN,DIRECT"] })
        "FINAL,DIRECT\n" = true := by
  exact ⟨by decide, by decide, by decide⟩

/-- C6 amended: the Clash generator emits the enabled rule sets' convertible
rules in order, then the custom rules, and appends `MATCH,DIRECT` exactly
when that list is empty; the Surge generator ignores the custom rules
entirely (its output does not depend on `options.Rules`) and always writes a
terminal `FINAL,DIRECT`. -/
theorem ruleEmissionClashSurge (rulesets : List RuleSet) (customRules : List String)
    (ps : List Proxy) (opts : GenerateOptions) (altRules : List String) :
    clashBuildRules rulesets customRules
      = (let base := ((rulesets.filter fun rs => rs.enabled).flatMap
            fun rs => rs.rules.filterMap
              fun r => if convertRule r = "" then none else some (convertRule r))
          ++ customRules;
        if base.isEmpty then ["MATCH,DIRECT"] else base)
    ∧ surgeGenerate ps rulesets opts
      = surgeGenerate ps rulesets { opts with rules := altRules }
    ∧ goEndsWith (surgeGenerate ps rulesets opts) "FINAL,DIRECT\n" = true := by
  exact ⟨clashBuildRulesSpec rulesets customRules,
    surgeIgnoresOtherOptions ps rulesets opts altRules,
    surgeAlwaysFinal ps rulesets opts⟩

/-- C7: the VMess parser on `vmess://` plus the base64 of the scenario-B JSON
returns exactly one proxy with type `vmess`, network `tcp` (the `ws` value
matches no case of the network switch, leaving the TCP default), TLS
`require`, empty SNI, host `a.example`, path `/p` and name `X`. -/
theorem vmessScenarioB :
    vmessParse
        "vmess://eyJ2IjoiMiIsInBzIjoiWCIsImFkZCI6ImEuZXhhbXBsZSIsInBvcnQiOiI0NDMiLCJpZCI6InV1aWQiLCJhaWQiOiIwIiwibmV0Ijoid3MiLCJ0bHMiOiJ0bHMiLCJob3N0IjoiYS5leGFtcGxlIiwicGF0aCI6Ii9wIn0="
      = .ok [{ typ := "vmess", name := "X", server := "a.example", port := 443,
               uuid := "uuid", aid := 0, method := "", network := "tcp", tls := "require",
               sni := "", host := "a.example", path := "/p",
               headers := [("Host", "a.example")], udp := false }] := by
  rfl

/-- Witness for the C8 theorem: two proxies sharing `(server, port, type)`
under different names, with sort enabled; dedup keeps exactly the first
post-sort occurrence. -/
theorem applyFiltersDedupTriple_witness :
    (∀ p ∈ [({ typ := "ss", name := "B", server := "a", port := 1 } : Proxy),
        { typ := "ss", name := "A", server := "a", port := 1 }], ':' ∉ p.typ.data)
    ∧ applyFilters { sort := true }
        [({ typ := "ss", name := "B", server := "a", port := 1 } : Proxy),
          { typ := "ss", name := "A", server := "a", port := 1 }]
      = firstOccurBy tripleOf (preDedup { sort := true }
          [({ typ := "ss", name := "B", server := "a", port := 1 } : Proxy),
            { typ := "ss", name := "A", server := "a", port := 1 }]) := by
  exact ⟨by decide, applyFiltersDedupTriple _ _ (by decide)⟩
